import Mathlib

/-!
Verification of the core matching engine of `smatch` (`smatch/smatch.c`).

The development shallowly embeds the C source: the `Match` record and the
bounded-heap routines (`match_build_heap`, `match_heap_fix`,
`match_heap_insert`), the accumulation loop of `domatch1`, the driver
`domatch` / `PySMatchCat_match`, the streaming writer
(`domatch1_2file`, `domatch2file_all`, `domatch2file`, `write_matches`)
and the utility `count_lines`.  C match vectors are embedded as Lean
lists (push = append, indexed store = `List.set`, indexed read =
`List.getD` with the record's default, mirroring the source's unchecked
accesses, which are in range on every reachable trace).  C `double`
values enter the matching logic only through addition, multiplication
and order comparisons, so they are embedded into the linearly ordered
ring of integers (cosines at an arbitrary common scale), which carries
exactly the order-algebraic content the code uses while keeping every
definition kernel-computable.  The helper headers `tree.h` and
`healpix.h` are not part of the sources; the pixel tree is modelled from
the spec (ordered map from pixel id to the list of secondary indices),
and the HEALPix pixel assignment of a point enters the model as input
data.
-/

namespace Smatch

/-- One match record, as in `defs.h`/usage in `smatch.c`: the primary
(catalog) index, the secondary (input) index and the cosine of the
angular distance (embedded at an arbitrary common scale, see the file
comment). -/
structure Match where
  cat_ind : Int
  input_ind : Int
  cosdist : Int
deriving DecidableEq, Repr

instance : Inhabited Match := ⟨⟨0, 0, 0⟩⟩

/-- Read of `data[i]` on a match vector (unchecked in C; `getD` with the
default record here, in range on every reachable trace). -/
def mget (l : List Match) (i : Nat) : Match :=
  l.getD i default

/-- The inner do-while of `match_build_heap` (smatch.c:100-110), started
at position `c`: compare `data[(c-1)/2]` with `data[c]`, swap when the
parent's `cosdist` is smaller, move to the parent, and repeat until the
root is reached.  The first argument is structural fuel: the position
strictly decreases each iteration, so fuel `c` always lets the loop
reach its own exit (`c = 0`), and the fuel-exhausted branch is never
taken on any call with fuel at least `c`. -/
def match_build_heap_sift : Nat → List Match → Nat → List Match
  | 0, data, _ => data
  | fuel + 1, data, c =>
    if c = 0 then data
    else
      match_build_heap_sift fuel
        (if (mget data ((c - 1) / 2)).cosdist < (mget data c).cosdist then
          (data.set ((c - 1) / 2) (mget data c)).set c (mget data ((c - 1) / 2))
        else data)
        ((c - 1) / 2)

/-- Embedding of `match_build_heap` (smatch.c:88-112): nothing to do for
size at most one; otherwise run the sift loop for `i = 1, ..., size-2`
(the C loop `for (i=1; i<vector_size(self)-1; i++)`, which stops one
short of the last element). -/
def match_build_heap (l : List Match) : List Match :=
  if l.length ≤ 1 then l
  else (List.range' 1 (l.length - 1 - 1)).foldl (fun d i => match_build_heap_sift i d i) l

/-- The child-selection step of `match_heap_fix` (smatch.c:132-135):
move to the right sibling when it exists (`jlo < n`) and its `cosdist`
is smaller. -/
def fix_jlo (data : List Match) (n jlo : Nat) : Nat :=
  if jlo < n ∧ (mget data (jlo + 1)).cosdist < (mget data jlo).cosdist then jlo + 1
  else jlo

/-- The while loop of `match_heap_fix` (smatch.c:131-146), including the
final `data[jhi] = *v` store.  Note that the C code keeps `v` as a
pointer to `data[0]`, so every read of `v->cosdist` and the final store
see the current contents of `data[0]`, which the first promotion may
have overwritten; the embedding reads `mget data 0` of the current list
to reproduce exactly that.  The first argument is structural fuel:
`jlo` strictly increases each iteration, so fuel `n + 1` always lets the
loop reach its own exit (`jlo > n`), and the fuel-exhausted branch —
which performs the same final store as the exit — is never taken on any
call with sufficient fuel. -/
def match_heap_fix_loop : Nat → List Match → Nat → Nat → Nat → List Match
  | 0, data, _, jhi, _ => data.set jhi (mget data 0)
  | fuel + 1, data, n, jhi, jlo =>
    if jlo ≤ n then
      if (mget data 0).cosdist ≤ (mget data (fix_jlo data n jlo)).cosdist then
        data.set jhi (mget data 0)
      else
        match_heap_fix_loop fuel (data.set jhi (mget data (fix_jlo data n jlo))) n
          (fix_jlo data n jlo) (2 * fix_jlo data n jlo + 1)
    else
      data.set jhi (mget data 0)

/-- Embedding of `match_heap_fix` (smatch.c:121-148): `n = size - 1`,
start with `jhi = 0`, `jlo = 1`. -/
def match_heap_fix (l : List Match) : List Match :=
  match_heap_fix_loop l.length l (l.length - 1) 0 1

/-- Embedding of `match_heap_insert` (smatch.c:156-164): when the
candidate's `cosdist` exceeds `data[0].cosdist`, overwrite the root and,
if more than one element is stored, restore the heap with
`match_heap_fix`. -/
def match_heap_insert (l : List Match) (m : Match) : List Match :=
  if (mget l 0).cosdist < m.cosdist then
    if 1 < (l.set 0 m).length then match_heap_fix (l.set 0 m)
    else l.set 0 m
  else l

/-- A point of the primary catalog (struct `Point` in `cat.h` as used by
`smatch.c`): unit-vector coordinates, the search radius and its cosine,
all embedded at an arbitrary common scale (see the file comment). -/
structure Point where
  x : Int
  y : Int
  z : Int
  radius : Int
  cos_radius : Int
deriving DecidableEq, Repr

instance : Inhabited Point := ⟨⟨0, 0, 0, 0, 0⟩⟩

/-- A secondary point, represented by the Cartesian coordinates that
`hpix_eq2xyz` computes from its `(ra, dec)` inside `domatch1`; the model
takes the coordinates as input data. -/
structure SecPoint where
  x : Int
  y : Int
  z : Int
deriving DecidableEq, Repr

instance : Inhabited SecPoint := ⟨⟨0, 0, 0⟩⟩

/-- A catalog entry (struct `CatalogEntry`): its point, the pixels whose
area intersects the search disc (`disc_pixels`, computed by
`hpix_disc_intersect` at construction and entering the model as data),
and the per-entry match buffer. -/
structure CatalogEntry where
  point : Point
  disc_pixels : List Int
  matches_ : List Match
deriving DecidableEq, Repr

instance : Inhabited CatalogEntry := ⟨⟨default, [], []⟩⟩

/-- Modelled from the spec: the pixel-tree of `tree.h` (not among the
sources; only its callers in `smatch.c` are).  Per spec section 4.B it
is a binary search tree mapping a pixel key to the ordered list of
secondary indices inserted under that key. -/
inductive Tree where
  | leaf : Tree
  | node (left : Tree) (key : Int) (indices : List Nat) (right : Tree) : Tree
deriving DecidableEq, Repr

instance : Inhabited Tree := ⟨Tree.leaf⟩

/-- Modelled from the spec: `tree_insert` locates the node with the
given key and appends the value index to its list; a fresh node is
created when the key is new (spec section 4.B). -/
def tree_insert : Tree → Int → Nat → Tree
  | Tree.leaf, k, i => Tree.node Tree.leaf k [i] Tree.leaf
  | Tree.node l key ind r, k, i =>
    if k < key then Tree.node (tree_insert l k i) key ind r
    else if key < k then Tree.node l key ind (tree_insert r k i)
    else Tree.node l key (ind ++ [i]) r

/-- Modelled from the spec: `tree_find` is a pure lookup returning the
node's index list, or nothing when the key is absent (spec section
4.B).  On the empty tree (a NULL pointer in C) it finds nothing. -/
def tree_find : Tree → Int → Option (List Nat)
  | Tree.leaf, _ => none
  | Tree.node l key ind r, k =>
    if k < key then tree_find l k
    else if key < k then tree_find r k
    else some ind

/-- Half the pixel count of the HEALPix grid, `hpix->npix/2` with
`npix = 12*nside^2`; used to shift tree keys (smatch.c:281-282,476). -/
def half_npix (nside : Int) : Int :=
  12 * nside ^ 2 / 2

/-- Embedding of `create_hpix_tree` (smatch.c:269-307): each secondary
index `i` is inserted under the single key `eq2pix(ra_i, dec_i) -
half_npix`.  The pixel of each secondary (`hpix_eq2pix`, from the
missing `healpix.h`) enters the model as the list `secPix`. -/
def create_hpix_tree (hn : Int) (secPix : List Int) : Tree :=
  (List.range secPix.length).foldl
    (fun t i => tree_insert t (secPix.getD i 0 - hn) i) Tree.leaf

/-- The engine object (struct `PySMatchCat`): `maxmatch`, the self-match
flag, the catalog, the grid size (standing for the `hpix` member), the
`tree` member — set to NULL by `PySMatchCat_init` and never populated,
since the `create_tree` call is commented out — and the running match
counter. -/
structure Engine where
  maxmatch : Int
  matching_self : Bool
  cat : List CatalogEntry
  nside : Int
  tree : Tree
  nmatches : Int
deriving DecidableEq, Repr

/-- The buffer/counter update of `domatch1` for one accepted candidate
(smatch.c:506-530): push and count while the buffer may grow — and
heapify on reaching `maxmatch` if `maxmatch > 1` — otherwise offer the
candidate to the heap without counting. -/
def domatch1_add (maxmatch : Int) (st : List Match × Int) (m : Match) :
    List Match × Int :=
  if maxmatch ≤ 0 ∨ (st.1.length : Int) < maxmatch then
    (if 1 < maxmatch ∧ ((st.1 ++ [m]).length : Int) = maxmatch then
      match_build_heap (st.1 ++ [m])
    else st.1 ++ [m], st.2 + 1)
  else
    (match_heap_insert st.1 m, st.2)

/-- One candidate test of the inner loop of `domatch1`
(smatch.c:490-532): compute the dot product with the entry's point and
accept the candidate exactly when it exceeds `cos_radius`. -/
def domatch1_step (maxmatch : Int) (pt : Point) (cat_ind : Int)
    (st : List Match × Int) (cand : Nat × SecPoint) : List Match × Int :=
  if pt.cos_radius < pt.x * cand.2.x + pt.y * cand.2.y + pt.z * cand.2.z then
    domatch1_add maxmatch st
      ⟨cat_ind, (cand.1 : Int), pt.x * cand.2.x + pt.y * cand.2.y + pt.z * cand.2.z⟩
  else st

/-- The candidate loop of `domatch1` over an explicit candidate list
(index paired with the secondary's Cartesian coordinates), threading the
entry's buffer and the engine's `nmatches`. -/
def domatch1_run (maxmatch : Int) (pt : Point) (cat_ind : Int)
    (cands : List (Nat × SecPoint)) (st : List Match × Int) : List Match × Int :=
  cands.foldl (domatch1_step maxmatch pt cat_ind) st

/-- Embedding of `domatch1` (smatch.c:451-541): walk the entry's
`disc_pixels`, look each shifted pixel up in the per-call tree, and run
the candidate test over the indices stored at the node. -/
def domatch1_tree (maxmatch hn : Int) (t : Tree) (disc : List Int) (pt : Point)
    (cat_ind : Int) (sec : List SecPoint) (st : List Match × Int) :
    List Match × Int :=
  disc.foldl (fun st hpixid =>
    match tree_find t (hpixid - hn) with
    | none => st
    | some inds =>
      inds.foldl (fun st j => domatch1_step maxmatch pt cat_ind st (j, sec.getD j default)) st) st

/-- The body of the catalog loop of `domatch` (smatch.c:563-570): run
`domatch1` for entry `i`, storing the updated buffer back into the
catalog and threading `nmatches`. -/
def dm_step (maxmatch hn : Int) (t : Tree) (sec : List SecPoint)
    (acc : List CatalogEntry × Int) (i : Nat) : List CatalogEntry × Int :=
  (acc.1.set i
    { acc.1.getD i default with
      matches_ := (domatch1_tree maxmatch hn t (acc.1.getD i default).disc_pixels
        (acc.1.getD i default).point (i : Int) sec
        ((acc.1.getD i default).matches_, acc.2)).1 },
   (domatch1_tree maxmatch hn t (acc.1.getD i default).disc_pixels
     (acc.1.getD i default).point (i : Int) sec
     ((acc.1.getD i default).matches_, acc.2)).2)

/-- Embedding of `domatch` (smatch.c:547-575): build the per-call tree
over the secondary, reset `nmatches` to zero, then run `domatch1` for
every catalog index in order. -/
def domatch (e : Engine) (secPix : List Int) (sec : List SecPoint) : Engine :=
  { e with
    cat := ((List.range e.cat.length).foldl
      (dm_step e.maxmatch (half_npix e.nside) (create_hpix_tree (half_npix e.nside) secPix) sec)
      (e.cat, 0)).1,
    nmatches := ((List.range e.cat.length).foldl
      (dm_step e.maxmatch (half_npix e.nside) (create_hpix_tree (half_npix e.nside) secPix) sec)
      (e.cat, 0)).2 }

/-- Embedding of `match_prep` (smatch.c:704-729): every entry's match
buffer is reset to visible size zero (both the `vector_clear` and the
`vector_realloc`/`vector_resize(.,0)` branches leave an empty buffer;
capacity is not observable in the model). -/
def match_prep (e : Engine) : Engine :=
  { e with cat := e.cat.map (fun c => { c with matches_ := [] }) }

/-- Embedding of `PySMatchCat_match` (smatch.c:736-758): store the
parsed `maxmatch` and `self_match` into the engine, then `match_prep`
followed by `domatch`. -/
def smatch_match (e : Engine) (maxmatch : Int) (self_match : Bool)
    (secPix : List Int) (sec : List SecPoint) : Engine :=
  domatch (match_prep { e with maxmatch := maxmatch, matching_self := self_match })
    secPix sec

/-- The dot product `pt->x*x + pt->y*y + pt->z*z` computed by the
matching loops (smatch.c:504,819). -/
def dotp (pt : Point) (sp : SecPoint) : Int :=
  pt.x * sp.x + pt.y * sp.y + pt.z * sp.z

/-- Embedding of `domatch1_2file` (smatch.c:767-836): for one secondary
point, look its single pixel up in the engine's `tree` member (which
`PySMatchCat_init` leaves NULL), skip `cat_ind == input_ind` when
self-matching, test each stored catalog index geometrically, and return
the matches written to the file, in writing order. -/
def domatch1_2file (e : Engine) (input_ind : Nat) (jpix : Int) (sp : SecPoint) :
    List Match :=
  match tree_find e.tree (jpix - half_npix e.nside) with
  | none => []
  | some inds =>
    inds.foldl (fun acc (cat_ind : Nat) =>
      if e.matching_self ∧ (cat_ind : Int) = (input_ind : Int) then acc
      else if (e.cat.getD cat_ind default).point.cos_radius <
          dotp (e.cat.getD cat_ind default).point sp then
        acc ++ [⟨(cat_ind : Int), (input_ind : Int),
          dotp (e.cat.getD cat_ind default).point sp⟩]
      else acc) []

/-- Embedding of `domatch2file_all` (smatch.c:838-866): stream every
secondary point through `domatch1_2file`, adding each per-point
increment to the engine's running `nmatches` (which is never reset on
this path); also returns all written matches in order. -/
def domatch2file_all (e : Engine) (secPix : List Int) (sec : List SecPoint) :
    Engine × List Match :=
  (List.range sec.length).foldl (fun acc j =>
    ({ acc.1 with
       nmatches := acc.1.nmatches +
         ((domatch1_2file acc.1 j (secPix.getD j 0) (sec.getD j default)).length : Int) },
     acc.2 ++ domatch1_2file acc.1 j (secPix.getD j 0) (sec.getD j default)))
    (e, [])

/-- Embedding of `write_matches` (smatch.c:868-894): walk the catalog
and write each entry's buffer to the file in buffer order. -/
def write_matches (e : Engine) : List Match :=
  e.cat.foldl (fun acc c => acc ++ c.matches_) []

/-- Embedding of `domatch2file` (smatch.c:896-930): for `maxmatch <= 0`
stream via `domatch2file_all`; otherwise run the in-memory match
(`match_prep` then `domatch`) and then write the buffers. -/
def domatch2file (e : Engine) (secPix : List Int) (sec : List SecPoint) :
    Engine × List Match :=
  if e.maxmatch ≤ 0 then domatch2file_all e secPix sec
  else
    (domatch (match_prep e) secPix sec,
     write_matches (domatch (match_prep e) secPix sec))

/-- Embedding of `PySMatchCat_match2file` (smatch.c:937-961): store the
parsed `maxmatch` and `self_match` into the engine, then
`domatch2file`. -/
def smatch_match2file (e : Engine) (maxmatch : Int) (self_match : Bool)
    (secPix : List Int) (sec : List SecPoint) : Engine × List Match :=
  domatch2file { e with maxmatch := maxmatch, matching_self := self_match } secPix sec

/-- The format string both match writers pass to `fprintf`
(smatch.c:823 and smatch.c:881). -/
def match_line_format : String := "%ld %ld %.16g\n"

/-- An argument for the two conversions the match writers use: `%ld`
carrying an integer, and `%.16g` whose rendered text is carried as a
string (the C library's floating formatting is outside the model). -/
inductive PrintfArg where
  | ld (n : Int) : PrintfArg
  | g16 (s : String) : PrintfArg

/-- Interpretation of a printf format over the two conversions used by
the match writers: `%ld` renders its integer in decimal, `%.16g` pastes
the rendered floating text, and every other character is literal. -/
def printf_render : List Char → List PrintfArg → List Char
  | '%' :: 'l' :: 'd' :: rest, PrintfArg.ld n :: args =>
    (toString n).data ++ printf_render rest args
  | '%' :: '.' :: '1' :: '6' :: 'g' :: rest, PrintfArg.g16 s :: args =>
    s.data ++ printf_render rest args
  | c :: rest, args => c :: printf_render rest args
  | [], _ => []

/-- One line as written by `write_matches`/`domatch1_2file`:
`fprintf(fobj, "%ld %ld %.16g\n", cat_ind, input_ind, cosdist)`, with
the `%.16g` text of `cosdist` abstracted as `gs`. -/
def write_match_line (m : Match) (gs : String) : List Char :=
  printf_render match_line_format.data
    [PrintfArg.ld m.cat_ind, PrintfArg.ld m.input_ind, PrintfArg.g16 gs]

/-- Collect the run of decimal digits at the head of the character
list, accumulating their value. -/
def read_digits : List Char → Nat → Nat
  | c :: rest, acc =>
    if '0' ≤ c ∧ c ≤ '9' then read_digits rest (acc * 10 + (c.toNat - 48)) else acc
  | [], acc => acc

/-- The precision of the first explicit-precision conversion in a
printf format: the digits following the first occurrence of the two
characters percent and dot. -/
def format_precision : List Char → Option Nat
  | '%' :: '.' :: rest => some (read_digits rest 0)
  | _ :: rest => format_precision rest
  | [] => none

/-- Conversion of the `int` returned by `fgetc` to the C `char` the
loop of `count_lines` stores it in (signed, wrapping). -/
def char_of_int (n : Int) : Int :=
  (n + 128) % 256 - 128

/-- The `while(!feof(fobj))` loop of `count_lines` (smatch.c:969-976)
over a file modelled as its list of bytes: each iteration reads one
character and counts it when it equals the newline character (code 10);
after the last byte one more `fgetc` returns EOF (-1), which is stored
into `ch`, compared, and not counted, and the loop exits with `feof`
set. -/
def count_lines_loop : List (Fin 256) → Int → Int
  | [], nlines => if char_of_int (-1) = 10 then nlines + 1 else nlines
  | b :: rest, nlines =>
    count_lines_loop rest (if char_of_int ((b : Nat) : Int) = 10 then nlines + 1 else nlines)

/-- Embedding of `count_lines` (smatch.c:963-979). -/
def count_lines (file : List (Fin 256)) : Int :=
  count_lines_loop file 0

/-- The per-entry sum of buffered match counts over a catalog. -/
def catSizeSum (cat : List CatalogEntry) : Int :=
  (cat.map (fun c => (c.matches_.length : Int))).sum

/-- Test fixture: a primary point on the x-axis whose cap has scaled
`cos_radius = 10`. -/
def testPoint : Point :=
  ⟨1, 0, 0, 0, 10⟩

/-- Test fixture: one catalog entry whose disc meets pixel 6 (the pixel
of the x-axis direction for `nside = 1` enters the model as data). -/
def testEntry : CatalogEntry :=
  ⟨testPoint, [6], []⟩

/-- Test fixture: an engine over the one-entry catalog, as
`PySMatchCat_init` leaves it (`tree` NULL, `nmatches` zero). -/
def testEngine : Engine :=
  ⟨0, false, [testEntry], 1, Tree.leaf, 0⟩

/-- Test fixture: two secondary points on the x-axis at scaled cosine
distances 14 and 12 from the primary, both inside its cap. -/
def sec2 : List SecPoint :=
  [⟨14, 0, 0⟩, ⟨12, 0, 0⟩]

/-- Test fixture: three secondary points at scaled cosine distances 14,
12 and 16 from the primary, all inside its cap, arriving in that
order. -/
def sec3 : List SecPoint :=
  [⟨14, 0, 0⟩, ⟨12, 0, 0⟩, ⟨16, 0, 0⟩]

/-- Test fixture: one secondary point coincident with the primary
(scaled cosine distance 20, well inside the cap). -/
def secExact : List SecPoint :=
  [⟨20, 0, 0⟩]

/-- An in-range `mget` read returns an element of the list. -/
theorem mget_mem : ∀ (l : List Match) (i : Nat), i < l.length → mget l i ∈ l
  | a :: l, 0, _ => List.mem_cons_self a l
  | a :: l, i + 1, h =>
    List.mem_cons_of_mem a (mget_mem l i (by simpa using h))

/-- Reading the stored position after `List.set`: the new value when the
store was in range, the untouched one otherwise. -/
theorem getD_set_cases {α : Type} :
    ∀ (l : List α) (i j : Nat) (x d : α),
      (l.set j x).getD i d = if i = j ∧ j < l.length then x else l.getD i d := by
  intro l
  induction l with
  | nil => intro i j x d; simp
  | cons a l ih =>
    intro i j x d
    cases j with
    | zero =>
      cases i with
      | zero => simp
      | succ i => simp
    | succ j =>
      cases i with
      | zero => simp
      | succ i =>
        have := ih i j x d
        simp only [List.set, List.getD, List.length_cons]
        simpa [List.getD] using this

/-- Effect of an in-range store on the total buffered-match count. -/
theorem catSizeSum_set :
    ∀ (cat : List CatalogEntry) (j : Nat) (c : CatalogEntry), j < cat.length →
      catSizeSum (cat.set j c) =
        catSizeSum cat - ((cat.getD j default).matches_.length : Int) +
          (c.matches_.length : Int) := by
  intro cat
  induction cat with
  | nil => intro j c h; simp at h
  | cons a cat ih =>
    intro j c h
    cases j with
    | zero =>
      simp only [List.set, catSizeSum, List.map_cons, List.sum_cons, List.getD_cons_zero]
      ring
    | succ j =>
      have hj : j < cat.length := by simpa using h
      have hrec := ih j c hj
      simp only [List.set, catSizeSum, List.map_cons, List.sum_cons,
        List.getD_cons_succ] at *
      rw [hrec]
      ring

/-- A property preserved by every step of a fold is preserved by the
fold. -/
theorem foldl_preserve {α β : Type} {P : α → Prop} {f : α → β → α} :
    ∀ (l : List β), (∀ a b, b ∈ l → P a → P (f a b)) → ∀ a, P a → P (l.foldl f a) := by
  intro l
  induction l with
  | nil => intro _ a ha; exact ha
  | cons b l ih =>
    intro h a ha
    exact ih (fun a' b' hb' => h a' b' (List.mem_cons_of_mem b hb')) (f a b)
      (h a b (List.mem_cons_self b l) ha)

/-- The sift loop of `match_build_heap` only swaps, so it preserves the
buffer's length. -/
theorem match_build_heap_sift_length :
    ∀ (fuel : Nat) (data : List Match) (c : Nat),
      (match_build_heap_sift fuel data c).length = data.length := by
  intro fuel
  induction fuel with
  | zero => intro data c; rfl
  | succ fuel ih =>
    intro data c
    show (if c = 0 then data else _).length = data.length
    split
    · rfl
    · rw [ih]
      split <;> simp

/-- The sift loop of `match_build_heap` writes only values read from the
buffer: with the start position in range, every element of the result
was an element of the input. -/
theorem match_build_heap_sift_subset :
    ∀ (fuel : Nat) (data : List Match) (c : Nat), c < data.length →
      ∀ x ∈ match_build_heap_sift fuel data c, x ∈ data := by
  intro fuel
  induction fuel with
  | zero => intro data c _ x hx; exact hx
  | succ fuel ih =>
    intro data c hc x hx
    rw [match_build_heap_sift] at hx
    split at hx
    · exact hx
    · rename_i hc0
      have hp : (c - 1) / 2 < data.length := by omega
      split at hx
      · have hlen :
            ((data.set ((c - 1) / 2) (mget data c)).set c (mget data ((c - 1) / 2))).length
              = data.length := by simp
        have hx' : x ∈ (data.set ((c - 1) / 2) (mget data c)).set c (mget data ((c - 1) / 2)) :=
          ih _ ((c - 1) / 2) (by rw [hlen]; exact hp) x hx
        rcases List.mem_or_eq_of_mem_set hx' with h' | h'
        · rcases List.mem_or_eq_of_mem_set h' with h'' | h''
          · exact h''
          · exact h'' ▸ mget_mem data c hc
        · exact h' ▸ mget_mem data ((c - 1) / 2) hp
      · exact ih data ((c - 1) / 2) hp x hx

/-- `match_build_heap` preserves the buffer's length. -/
theorem match_build_heap_length (l : List Match) :
    (match_build_heap l).length = l.length := by
  unfold match_build_heap
  split
  · rfl
  · refine foldl_preserve (P := fun d : List Match => d.length = l.length) _ ?_ l rfl
    intro d i _ hd
    show (match_build_heap_sift i d i).length = l.length
    rw [match_build_heap_sift_length, hd]

/-- Every element of `match_build_heap l` is an element of `l`. -/
theorem match_build_heap_subset (l : List Match) :
    ∀ x ∈ match_build_heap l, x ∈ l := by
  unfold match_build_heap
  split
  · exact fun x hx => hx
  · rename_i hlen
    refine (foldl_preserve
      (P := fun d : List Match => d.length = l.length ∧ ∀ x ∈ d, x ∈ l)
      (List.range' 1 (l.length - 1 - 1)) ?_ l ⟨rfl, fun x hx => hx⟩).2
    intro d i hi hd
    have hi' : i < l.length := by
      have := List.mem_range'_1.mp hi
      omega
    constructor
    · show (match_build_heap_sift i d i).length = l.length
      rw [match_build_heap_sift_length, hd.1]
    · intro x hx
      exact hd.2 x (match_build_heap_sift_subset i d i (by rw [hd.1]; exact hi') x hx)

/-- The child selected by `fix_jlo` stays within the heap bound. -/
theorem fix_jlo_le (data : List Match) (n jlo : Nat) (h : jlo ≤ n) :
    fix_jlo data n jlo ≤ n := by
  unfold fix_jlo
  split <;> omega

/-- The loop of `match_heap_fix` preserves the buffer's length. -/
theorem match_heap_fix_loop_length :
    ∀ (fuel : Nat) (data : List Match) (n jhi jlo : Nat),
      (match_heap_fix_loop fuel data n jhi jlo).length = data.length := by
  intro fuel
  induction fuel with
  | zero => intro data n jhi jlo; simp [match_heap_fix_loop]
  | succ fuel ih =>
    intro data n jhi jlo
    rw [match_heap_fix_loop]
    split
    · split
      · simp
      · rw [ih]
        simp
    · simp

/-- The loop of `match_heap_fix` writes only values read from the
buffer: on a nonempty buffer, every element of the result was an
element of the input. -/
theorem match_heap_fix_loop_subset :
    ∀ (fuel : Nat) (data : List Match) (n jhi jlo : Nat), n + 1 = data.length →
      ∀ x ∈ match_heap_fix_loop fuel data n jhi jlo, x ∈ data := by
  intro fuel
  induction fuel with
  | zero =>
    intro data n jhi jlo hlen x hx
    rw [match_heap_fix_loop] at hx
    rcases List.mem_or_eq_of_mem_set hx with h' | h'
    · exact h'
    · exact h' ▸ mget_mem data 0 (by omega)
  | succ fuel ih =>
    intro data n jhi jlo hlen x hx
    rw [match_heap_fix_loop] at hx
    split at hx
    · rename_i h1
      split at hx
      · rcases List.mem_or_eq_of_mem_set hx with h' | h'
        · exact h'
        · exact h' ▸ mget_mem data 0 (by omega)
      · have hlen' : n + 1 = (data.set jhi (mget data (fix_jlo data n jlo))).length := by
          simpa using hlen
        have hx' := ih _ n _ _ hlen' x hx
        rcases List.mem_or_eq_of_mem_set hx' with h' | h'
        · exact h'
        · exact h' ▸ mget_mem data (fix_jlo data n jlo)
            (by have := fix_jlo_le data n jlo h1; omega)
    · rcases List.mem_or_eq_of_mem_set hx with h' | h'
      · exact h'
      · exact h' ▸ mget_mem data 0 (by omega)

/-- `match_heap_fix` preserves the buffer's length. -/
theorem match_heap_fix_length (l : List Match) :
    (match_heap_fix l).length = l.length :=
  match_heap_fix_loop_length l.length l (l.length - 1) 0 1

/-- Every element of `match_heap_fix l` is an element of the nonempty
buffer `l`. -/
theorem match_heap_fix_subset (l : List Match) (h : 0 < l.length) :
    ∀ x ∈ match_heap_fix l, x ∈ l :=
  match_heap_fix_loop_subset l.length l (l.length - 1) 0 1 (by omega)

/-- `match_heap_insert` preserves the buffer's length. -/
theorem match_heap_insert_length (l : List Match) (m : Match) :
    (match_heap_insert l m).length = l.length := by
  unfold match_heap_insert
  split
  · split
    · rw [match_heap_fix_length]
      simp
    · simp
  · rfl

/-- Every element after `match_heap_insert` is an old element or the
offered candidate. -/
theorem match_heap_insert_subset (l : List Match) (m : Match) :
    ∀ x ∈ match_heap_insert l m, x ∈ l ∨ x = m := by
  unfold match_heap_insert
  split
  · split
    · rename_i hlen
      intro x hx
      exact List.mem_or_eq_of_mem_set (match_heap_fix_subset _ (by omega) x hx)
    · intro x hx
      exact List.mem_or_eq_of_mem_set hx
  · intro x hx
    exact Or.inl hx

/-- `domatch1_add` either appends (growing the buffer by one and
counting one match) or offers to the heap (leaving both buffer length
and the counter unchanged). -/
theorem domatch1_add_cases (maxmatch : Int) (st : List Match × Int) (m : Match) :
    ((domatch1_add maxmatch st m).1.length = st.1.length + 1 ∧
      (domatch1_add maxmatch st m).2 = st.2 + 1) ∨
    ((domatch1_add maxmatch st m).1.length = st.1.length ∧
      (domatch1_add maxmatch st m).2 = st.2) := by
  unfold domatch1_add
  split
  · left
    refine ⟨?_, rfl⟩
    dsimp only
    split
    · rw [match_build_heap_length]
      simp
    · simp
  · right
    exact ⟨match_heap_insert_length st.1 m, rfl⟩

/-- With a positive cap, `domatch1_add` keeps the buffer within the
cap. -/
theorem domatch1_add_len_le (maxmatch : Int) (st : List Match × Int) (m : Match)
    (hmm : 1 ≤ maxmatch) (hst : (st.1.length : Int) ≤ maxmatch) :
    ((domatch1_add maxmatch st m).1.length : Int) ≤ maxmatch := by
  unfold domatch1_add
  split
  · rename_i hcond
    have hlt : (st.1.length : Int) < maxmatch := by
      rcases hcond with h | h
      · omega
      · exact h
    dsimp only
    split
    · rw [match_build_heap_length]
      simp only [List.length_append, List.length_cons, List.length_nil]
      push_cast
      omega
    · simp only [List.length_append, List.length_cons, List.length_nil]
      push_cast
      omega
  · dsimp only
    rw [match_heap_insert_length]
    exact hst

/-- Every element after `domatch1_add` is an old element or the accepted
candidate. -/
theorem domatch1_add_subset (maxmatch : Int) (st : List Match × Int) (m : Match) :
    ∀ x ∈ (domatch1_add maxmatch st m).1, x ∈ st.1 ∨ x = m := by
  unfold domatch1_add
  split
  · intro x hx
    dsimp only at hx
    split at hx
    · rcases List.mem_append.mp (match_build_heap_subset _ x hx) with h | h
      · exact Or.inl h
      · exact Or.inr (by simpa using h)
    · rcases List.mem_append.mp hx with h | h
      · exact Or.inl h
      · exact Or.inr (by simpa using h)
  · exact match_heap_insert_subset st.1 m

/-- Each candidate step of `domatch1` preserves the difference between
the running counter and the buffer's length. -/
theorem domatch1_step_nm (maxmatch : Int) (pt : Point) (ci : Int)
    (st : List Match × Int) (cand : Nat × SecPoint) :
    (domatch1_step maxmatch pt ci st cand).2 -
        ((domatch1_step maxmatch pt ci st cand).1.length : Int) =
      st.2 - (st.1.length : Int) := by
  unfold domatch1_step
  split
  · rcases domatch1_add_cases maxmatch st
        ⟨ci, (cand.1 : Int), pt.x * cand.2.x + pt.y * cand.2.y + pt.z * cand.2.z⟩ with
      ⟨h1, h2⟩ | ⟨h1, h2⟩
    · rw [h1, h2]
      push_cast
      ring
    · rw [h1, h2]
  · rfl

/-- Each candidate step of `domatch1` never shrinks the buffer. -/
theorem domatch1_step_mono (maxmatch : Int) (pt : Point) (ci : Int)
    (st : List Match × Int) (cand : Nat × SecPoint) :
    st.1.length ≤ (domatch1_step maxmatch pt ci st cand).1.length := by
  unfold domatch1_step
  split
  · rcases domatch1_add_cases maxmatch st
        ⟨ci, (cand.1 : Int), pt.x * cand.2.x + pt.y * cand.2.y + pt.z * cand.2.z⟩ with
      ⟨h1, _⟩ | ⟨h1, _⟩ <;> omega
  · exact Nat.le_refl _

/-- With a positive cap, each candidate step of `domatch1` keeps the
buffer within the cap. -/
theorem domatch1_step_len_le (maxmatch : Int) (pt : Point) (ci : Int)
    (st : List Match × Int) (cand : Nat × SecPoint) (hmm : 1 ≤ maxmatch)
    (hst : (st.1.length : Int) ≤ maxmatch) :
    ((domatch1_step maxmatch pt ci st cand).1.length : Int) ≤ maxmatch := by
  unfold domatch1_step
  split
  · exact domatch1_add_len_le maxmatch st _ hmm hst
  · exact hst

/-- Each candidate step of `domatch1` only adds matches that passed the
strict geometric test against the entry's cap. -/
theorem domatch1_step_mem (maxmatch : Int) (pt : Point) (ci : Int)
    (st : List Match × Int) (cand : Nat × SecPoint)
    (h : ∀ x ∈ st.1, pt.cos_radius < x.cosdist) :
    ∀ x ∈ (domatch1_step maxmatch pt ci st cand).1, pt.cos_radius < x.cosdist := by
  unfold domatch1_step
  split
  · rename_i hpass
    intro x hx
    rcases domatch1_add_subset maxmatch st _ x hx with h' | h'
    · exact h x h'
    · subst h'
      exact hpass
  · exact h

/-- A state property preserved by every candidate step is preserved by
the whole pixel/node traversal of `domatch1`. -/
theorem domatch1_tree_preserve {P : List Match × Int → Prop} (maxmatch hn : Int)
    (t : Tree) (disc : List Int) (pt : Point) (ci : Int) (sec : List SecPoint)
    (hstep : ∀ st cand, P st → P (domatch1_step maxmatch pt ci st cand)) :
    ∀ st, P st → P (domatch1_tree maxmatch hn t disc pt ci sec st) := by
  intro st h
  refine foldl_preserve disc ?_ st h
  intro a b _ ha
  show P (match tree_find t (b - hn) with
    | none => a
    | some inds =>
      inds.foldl (fun st j => domatch1_step maxmatch pt ci st (j, sec.getD j default)) a)
  cases hf : tree_find t (b - hn) with
  | none => exact ha
  | some inds =>
    exact foldl_preserve inds (fun a' b' _ ha' => hstep a' (b', sec.getD b' default) ha') a ha

/-- The pixel/node traversal of `domatch1` preserves the difference
between the running counter and the buffer's length. -/
theorem domatch1_tree_nm (maxmatch hn : Int) (t : Tree) (disc : List Int)
    (pt : Point) (ci : Int) (sec : List SecPoint) (st : List Match × Int) :
    (domatch1_tree maxmatch hn t disc pt ci sec st).2 -
        ((domatch1_tree maxmatch hn t disc pt ci sec st).1.length : Int) =
      st.2 - (st.1.length : Int) :=
  domatch1_tree_preserve maxmatch hn t disc pt ci sec
    (P := fun s => s.2 - (s.1.length : Int) = st.2 - (st.1.length : Int))
    (fun s c hs => by
      show (domatch1_step maxmatch pt ci s c).2 -
          ((domatch1_step maxmatch pt ci s c).1.length : Int) =
        st.2 - (st.1.length : Int)
      rw [domatch1_step_nm]
      exact hs) st rfl

/-- With a positive cap, the pixel/node traversal of `domatch1` keeps
the buffer within the cap. -/
theorem domatch1_tree_len_le (maxmatch hn : Int) (t : Tree) (disc : List Int)
    (pt : Point) (ci : Int) (sec : List SecPoint) (st : List Match × Int)
    (hmm : 1 ≤ maxmatch) (hst : (st.1.length : Int) ≤ maxmatch) :
    ((domatch1_tree maxmatch hn t disc pt ci sec st).1.length : Int) ≤ maxmatch :=
  domatch1_tree_preserve maxmatch hn t disc pt ci sec
    (P := fun s => (s.1.length : Int) ≤ maxmatch)
    (fun s c hs => domatch1_step_len_le maxmatch pt ci s c hmm hs) st hst

/-- The pixel/node traversal of `domatch1` never shrinks the buffer. -/
theorem domatch1_tree_mono (maxmatch hn : Int) (t : Tree) (disc : List Int)
    (pt : Point) (ci : Int) (sec : List SecPoint) (st : List Match × Int) :
    st.1.length ≤ (domatch1_tree maxmatch hn t disc pt ci sec st).1.length :=
  domatch1_tree_preserve maxmatch hn t disc pt ci sec
    (P := fun s => st.1.length ≤ s.1.length)
    (fun s c hs => Nat.le_trans hs (domatch1_step_mono maxmatch pt ci s c)) st
    (Nat.le_refl _)

/-- Every match the pixel/node traversal of `domatch1` stores passed the
strict geometric test, provided every already-stored match did. -/
theorem domatch1_tree_mem (maxmatch hn : Int) (t : Tree) (disc : List Int)
    (pt : Point) (ci : Int) (sec : List SecPoint) (st : List Match × Int)
    (hst : ∀ x ∈ st.1, pt.cos_radius < x.cosdist) :
    ∀ x ∈ (domatch1_tree maxmatch hn t disc pt ci sec st).1,
      pt.cos_radius < x.cosdist :=
  domatch1_tree_preserve maxmatch hn t disc pt ci sec
    (P := fun s => ∀ x ∈ s.1, pt.cos_radius < x.cosdist)
    (fun s c hs => domatch1_step_mem maxmatch pt ci s c hs) st hst

/-- One catalog step of `domatch` preserves the catalog's length and the
difference between the running counter and the total buffered count. -/
theorem dm_step_nm (mm hn : Int) (t : Tree) (sec : List SecPoint)
    (acc : List CatalogEntry × Int) (j : Nat) (hj : j < acc.1.length) :
    (dm_step mm hn t sec acc j).1.length = acc.1.length ∧
    (dm_step mm hn t sec acc j).2 - catSizeSum (dm_step mm hn t sec acc j).1 =
      acc.2 - catSizeSum acc.1 := by
  unfold dm_step
  constructor
  · simp
  · dsimp only
    rw [catSizeSum_set acc.1 j _ hj]
    have hrun := domatch1_tree_nm mm hn t (acc.1.getD j default).disc_pixels
      (acc.1.getD j default).point (j : Int) sec ((acc.1.getD j default).matches_, acc.2)
    dsimp only at hrun
    have : (domatch1_tree mm hn t (acc.1.getD j default).disc_pixels
        (acc.1.getD j default).point (j : Int) sec
        ((acc.1.getD j default).matches_, acc.2)).2 =
        acc.2 - ((acc.1.getD j default).matches_.length : Int) +
          ((domatch1_tree mm hn t (acc.1.getD j default).disc_pixels
            (acc.1.getD j default).point (j : Int) sec
            ((acc.1.getD j default).matches_, acc.2)).1.length : Int) := by
      omega
    rw [this]
    ring

/-- One catalog step of `domatch` keeps every buffer within a positive
cap. -/
theorem dm_step_bound (mm hn : Int) (t : Tree) (sec : List SecPoint)
    (acc : List CatalogEntry × Int) (j : Nat) (hmm : 1 ≤ mm)
    (hacc : ∀ i, (((acc.1.getD i default).matches_.length : Int)) ≤ mm) :
    ∀ i, ((((dm_step mm hn t sec acc j).1.getD i default).matches_.length : Int)) ≤ mm := by
  intro i
  unfold dm_step
  dsimp only
  rw [getD_set_cases]
  split
  · exact domatch1_tree_len_le mm hn t (acc.1.getD j default).disc_pixels
      (acc.1.getD j default).point (j : Int) sec
      ((acc.1.getD j default).matches_, acc.2) hmm (hacc j)
  · exact hacc i

/-- One catalog step of `domatch` preserves the per-entry guarantee that
every buffered match passed the strict geometric test against its own
entry's cap. -/
theorem dm_step_prop (mm hn : Int) (t : Tree) (sec : List SecPoint)
    (acc : List CatalogEntry × Int) (j : Nat)
    (hacc : ∀ i, ∀ m ∈ (acc.1.getD i default).matches_,
      (acc.1.getD i default).point.cos_radius < m.cosdist) :
    ∀ i, ∀ m ∈ ((dm_step mm hn t sec acc j).1.getD i default).matches_,
      ((dm_step mm hn t sec acc j).1.getD i default).point.cos_radius < m.cosdist := by
  intro i
  unfold dm_step
  dsimp only
  rw [getD_set_cases]
  split
  · intro m hm
    exact domatch1_tree_mem mm hn t (acc.1.getD j default).disc_pixels
      (acc.1.getD j default).point (j : Int) sec
      ((acc.1.getD j default).matches_, acc.2) (hacc j) m hm
  · exact hacc i

/-- Reading any position of a catalog whose buffers were all cleared
(also the out-of-range default) yields an empty match buffer. -/
theorem getD_map_empty :
    ∀ (l : List CatalogEntry) (i : Nat),
      ((l.map (fun c : CatalogEntry => { c with matches_ := ([] : List Match) })).getD i
        default).matches_ = [] := by
  intro l
  induction l with
  | nil => intro i; cases i <;> rfl
  | cons a l ih =>
    intro i
    cases i with
    | zero => rfl
    | succ i => simpa using ih i

/-- After `match_prep`, every entry of the catalog (and the out-of-range
default) has an empty match buffer. -/
theorem match_prep_getD (e : Engine) (i : Nat) :
    (((match_prep e).cat.getD i default)).matches_ = [] :=
  getD_map_empty e.cat i

/-- After `match_prep`, the total buffered count is zero. -/
theorem catSizeSum_match_prep (e : Engine) :
    catSizeSum (match_prep e).cat = 0 := by
  unfold match_prep catSizeSum
  dsimp only
  induction e.cat with
  | nil => rfl
  | cons a l ih => simpa using ih

/-- After `domatch`, the engine's `nmatches` equals the total buffered
count of the catalog, provided the call started with empty buffers. -/
theorem domatch_nmatches (e : Engine) (secPix : List Int) (sec : List SecPoint)
    (h0 : catSizeSum e.cat = 0) :
    (domatch e secPix sec).nmatches = catSizeSum (domatch e secPix sec).cat := by
  unfold domatch
  dsimp only
  have key := foldl_preserve
    (P := fun acc : List CatalogEntry × Int =>
      acc.1.length = e.cat.length ∧ acc.2 - catSizeSum acc.1 = 0 - catSizeSum e.cat)
    (List.range e.cat.length)
    (fun acc j hj hacc => by
      have hjlt : j < acc.1.length := by
        rw [hacc.1]
        exact List.mem_range.mp hj
      have hstep := dm_step_nm (e.maxmatch) (half_npix e.nside)
        (create_hpix_tree (half_npix e.nside) secPix) sec acc j hjlt
      exact ⟨by rw [hstep.1, hacc.1], by rw [hstep.2]; exact hacc.2⟩)
    (e.cat, 0) ⟨rfl, rfl⟩
  have h2 := key.2
  omega

/-- After `domatch` with a positive cap, every buffer stays within the
cap, provided every buffer did so at the start. -/
theorem domatch_bound (e : Engine) (secPix : List Int) (sec : List SecPoint)
    (hmm : 1 ≤ e.maxmatch)
    (hinit : ∀ i, (((e.cat.getD i default).matches_.length : Int)) ≤ e.maxmatch) :
    ∀ i, ((((domatch e secPix sec).cat.getD i default).matches_.length : Int)) ≤
      e.maxmatch := by
  unfold domatch
  dsimp only
  exact foldl_preserve
    (P := fun acc : List CatalogEntry × Int =>
      ∀ i, (((acc.1.getD i default).matches_.length : Int)) ≤ e.maxmatch)
    (List.range e.cat.length)
    (fun acc j _ hacc => dm_step_bound (e.maxmatch) (half_npix e.nside)
      (create_hpix_tree (half_npix e.nside) secPix) sec acc j hmm hacc)
    (e.cat, 0) hinit

/-- After `domatch`, every buffered match passed the strict geometric
test against its own entry's cap, provided every initially buffered one
did. -/
theorem domatch_prop (e : Engine) (secPix : List Int) (sec : List SecPoint)
    (hinit : ∀ i, ∀ m ∈ (e.cat.getD i default).matches_,
      (e.cat.getD i default).point.cos_radius < m.cosdist) :
    ∀ i, ∀ m ∈ ((domatch e secPix sec).cat.getD i default).matches_,
      ((domatch e secPix sec).cat.getD i default).point.cos_radius < m.cosdist := by
  unfold domatch
  dsimp only
  exact foldl_preserve
    (P := fun acc : List CatalogEntry × Int =>
      ∀ i, ∀ m ∈ (acc.1.getD i default).matches_,
        (acc.1.getD i default).point.cos_radius < m.cosdist)
    (List.range e.cat.length)
    (fun acc j _ hacc => dm_step_prop (e.maxmatch) (half_npix e.nside)
      (create_hpix_tree (half_npix e.nside) secPix) sec acc j hacc)
    (e.cat, 0) hinit

/-- Every match `domatch1_2file` writes passed the strict geometric test
against the cap of the catalog entry its `cat_ind` names. -/
theorem domatch1_2file_mem (e : Engine) (j : Nat) (jpix : Int) (sp : SecPoint) :
    ∀ m ∈ domatch1_2file e j jpix sp,
      (e.cat.getD m.cat_ind.toNat default).point.cos_radius < m.cosdist := by
  unfold domatch1_2file
  cases hf : tree_find e.tree (jpix - half_npix e.nside) with
  | none => intro m hm; simp at hm
  | some inds =>
    refine foldl_preserve
      (P := fun acc : List Match => ∀ m ∈ acc,
        (e.cat.getD m.cat_ind.toNat default).point.cos_radius < m.cosdist)
      inds ?_ [] (by intro m hm; simp at hm)
    intro acc ci _ hacc
    show ∀ m ∈ (if e.matching_self ∧ (ci : Int) = (j : Int) then acc
      else if (e.cat.getD ci default).point.cos_radius <
          dotp (e.cat.getD ci default).point sp then
        acc ++ [⟨(ci : Int), (j : Int), dotp (e.cat.getD ci default).point sp⟩]
      else acc), (e.cat.getD m.cat_ind.toNat default).point.cos_radius < m.cosdist
    split
    · exact hacc
    · split
      · rename_i hpass
        intro m hm
        rcases List.mem_append.mp hm with h' | h'
        · exact hacc m h'
        · have hm' : m = ⟨(ci : Int), (j : Int), dotp (e.cat.getD ci default).point sp⟩ := by
            simpa using h'
          subst hm'
          simpa [Int.toNat_natCast] using hpass
      · exact hacc

/-- The streaming path `domatch2file_all` adds exactly the number of
written lines to the engine's running counter, never resetting it. -/
theorem domatch2file_all_nm (e : Engine) (secPix : List Int) (sec : List SecPoint) :
    (domatch2file_all e secPix sec).1.nmatches =
      e.nmatches + ((domatch2file_all e secPix sec).2.length : Int) := by
  unfold domatch2file_all
  have key := foldl_preserve
    (P := fun acc : Engine × List Match =>
      acc.1.nmatches - (acc.2.length : Int) = e.nmatches)
    (List.range sec.length)
    (fun acc j _ hacc => by
      show ({ acc.1 with
          nmatches := acc.1.nmatches +
            ((domatch1_2file acc.1 j (secPix.getD j 0) (sec.getD j default)).length : Int) },
        acc.2 ++ domatch1_2file acc.1 j (secPix.getD j 0) (sec.getD j default)).1.nmatches -
        (((acc.2 ++ domatch1_2file acc.1 j (secPix.getD j 0) (sec.getD j default)).length : Nat) : Int) =
        e.nmatches
      dsimp only
      rw [List.length_append]
      push_cast
      omega)
    (e, []) (by dsimp only; simp)
  have h2 := key
  dsimp only at h2
  omega

/-- The `char` conversion of a byte equals the newline code exactly for
the newline byte. -/
theorem char_of_int_eq_ten (v : Nat) (hv : v < 256) :
    char_of_int (v : Int) = 10 ↔ v = 10 := by
  unfold char_of_int
  omega

/-- The loop of `count_lines` adds the number of newline bytes of the
remaining file to its accumulator. -/
theorem count_lines_loop_eq :
    ∀ (file : List (Fin 256)) (nl : Int),
      count_lines_loop file nl = nl + (file.count (10 : Fin 256) : Int) := by
  intro file
  induction file with
  | nil =>
    intro nl
    show (if char_of_int (-1) = 10 then nl + 1 else nl) = nl + _
    rw [if_neg (by decide)]
    simp
  | cons b rest ih =>
    intro nl
    show count_lines_loop rest
        (if char_of_int ((b : Nat) : Int) = 10 then nl + 1 else nl) =
      nl + ((List.count (10 : Fin 256) (b :: rest) : Nat) : Int)
    rw [ih, List.count_cons]
    by_cases hb : b = (10 : Fin 256)
    · subst hb
      rw [if_pos (by decide)]
      simp
      ring
    · have hcond : ¬ (char_of_int ((b : Nat) : Int) = 10) := by
        rw [char_of_int_eq_ten (b : Nat) b.isLt]
        intro h
        exact hb (Fin.ext (by simpa using h))
      rw [if_neg hcond]
      have : (b == (10 : Fin 256)) = false := by
        simpa using hb
      simp [this]

/-- C1 (evaluation of the code at a failing input): with `maxmatch = 2`,
one primary entry and two accepted candidates at scaled cosdist 14 then
12, the buffer reaches capacity (size = maxmatch) and `match_build_heap`
runs, yet index 0 still holds cosdist 14 while the strictly smaller 12
is also stored — the heapified buffer does not have the smallest
`cosdist` at index 0, contrary to the claim. -/
theorem claim_C1 :
    ((smatch_match testEngine 2 false [6, 6] sec2).cat.getD 0 default).matches_ =
      [⟨0, 0, 14⟩, ⟨0, 1, 12⟩] ∧
    (((smatch_match testEngine 2 false [6, 6] sec2).cat.getD 0 default).matches_.length : Int) =
      (smatch_match testEngine 2 false [6, 6] sec2).maxmatch ∧
    (mget ((smatch_match testEngine 2 false [6, 6] sec2).cat.getD 0 default).matches_ 0).cosdist =
      14 ∧
    (12 : Int) ∈
      (((smatch_match testEngine 2 false [6, 6] sec2).cat.getD 0 default).matches_.map
        Match.cosdist) ∧
    (12 : Int) < 14 := by decide

/-- C2 (evaluation of the code at a failing input): with `maxmatch = 2`
and three candidates passing the geometric test at scaled cosdist 14,
12, 16 in arrival order, the final buffer is at capacity but holds the
worst candidate twice (cosdist 12 duplicated by the aliasing store in
`match_heap_fix`), while the two largest cosdist values 16 and 14 are
both absent — the buffer's cosdist set is not the top-K. -/
theorem claim_C2 :
    ((smatch_match testEngine 2 false [6, 6, 6] sec3).cat.getD 0 default).matches_ =
      [⟨0, 1, 12⟩, ⟨0, 1, 12⟩] ∧
    testPoint.cos_radius < dotp testPoint ⟨14, 0, 0⟩ ∧
    testPoint.cos_radius < dotp testPoint ⟨12, 0, 0⟩ ∧
    testPoint.cos_radius < dotp testPoint ⟨16, 0, 0⟩ ∧
    (14 : Int) ∉
      (((smatch_match testEngine 2 false [6, 6, 6] sec3).cat.getD 0 default).matches_.map
        Match.cosdist) ∧
    (16 : Int) ∉
      (((smatch_match testEngine 2 false [6, 6, 6] sec3).cat.getD 0 default).matches_.map
        Match.cosdist) ∧
    (12 : Int) < 14 ∧ (14 : Int) < 16 := by decide

/-- C3 (amended): every line the match writers produce has exactly the
shape field, one space, field, one space, `%.16g` text, one newline —
with exactly two spaces, exactly one newline and the newline last,
whenever the rendered fields contain neither — and the precision of the
`cosdist` conversion in the format string the writers pass to `fprintf`
is 16 significant digits, not 17. -/
theorem claim_C3 (m : Match) (gs : String)
    (hg1 : '\n' ∉ gs.data) (hg2 : ' ' ∉ gs.data)
    (hc1 : '\n' ∉ (toString m.cat_ind).data) (hc2 : ' ' ∉ (toString m.cat_ind).data)
    (hi1 : '\n' ∉ (toString m.input_ind).data) (hi2 : ' ' ∉ (toString m.input_ind).data) :
    write_match_line m gs =
      (toString m.cat_ind).data ++ [' '] ++ (toString m.input_ind).data ++ [' '] ++
        gs.data ++ ['\n'] ∧
    (write_match_line m gs).count ' ' = 2 ∧
    (write_match_line m gs).count '\n' = 1 ∧
    (write_match_line m gs).getLast? = some '\n' ∧
    format_precision match_line_format.data = some 16 := by
  have heq : write_match_line m gs =
      (toString m.cat_ind).data ++ ' ' ::
        ((toString m.input_ind).data ++ ' ' :: (gs.data ++ ['\n'])) := rfl
  refine ⟨?_, ?_, ?_, ?_, by decide⟩
  · rw [heq]
    simp
  · rw [heq]
    simp [List.count_append, List.count_cons, List.count_eq_zero.mpr hg2,
      List.count_eq_zero.mpr hc2, List.count_eq_zero.mpr hi2]
  · rw [heq]
    simp [List.count_append, List.count_cons, List.count_eq_zero.mpr hg1,
      List.count_eq_zero.mpr hc1, List.count_eq_zero.mpr hi1]
  · have heq2 : write_match_line m gs =
        ((toString m.cat_ind).data ++ ' ' :: ((toString m.input_ind).data ++ ' ' :: gs.data)) ++
          ['\n'] := by
      rw [heq]
      simp
    rw [heq2, List.getLast?_concat]

/-- C3 (counterexample to the claim as stated): the claim says the
`cosdist` field is formatted with 17 significant digits; the format
string both writers pass to `fprintf` carries precision 16. -/
theorem claim_C3_counterexample :
    format_precision match_line_format.data = some 16 ∧
    format_precision match_line_format.data ≠ some 17 := by decide

/-- C3 (witness): the amended claim applied to the concrete match
`(12, 34, 5)` with `%.16g` text `0.25`. -/
theorem claim_C3_witness :
    (write_match_line ⟨12, 34, 5⟩ "0.25").count ' ' = 2 ∧
    (write_match_line ⟨12, 34, 5⟩ "0.25").count '\n' = 1 :=
  ⟨(claim_C3 ⟨12, 34, 5⟩ "0.25" (by decide) (by decide) (by decide) (by decide)
      (by decide) (by decide)).2.1,
   (claim_C3 ⟨12, 34, 5⟩ "0.25" (by decide) (by decide) (by decide) (by decide)
      (by decide) (by decide)).2.2.1⟩

/-- C4: every match emitted by any path satisfies the strict cap test.
For the in-memory path, every match buffered for entry `i` after a
`PySMatchCat_match` call has `cosdist` strictly above that entry's
`cos_radius`; for the streaming path, every match `domatch1_2file`
writes has `cosdist` strictly above the `cos_radius` of the entry its
`cat_ind` names.  Equality is never emitted, since both sites test with
strict `>`. -/
theorem claim_C4 :
    (∀ (e : Engine) (mm : Int) (sm : Bool) (secPix : List Int) (sec : List SecPoint)
      (i : Nat) (m : Match),
      m ∈ ((smatch_match e mm sm secPix sec).cat.getD i default).matches_ →
      ((smatch_match e mm sm secPix sec).cat.getD i default).point.cos_radius < m.cosdist) ∧
    (∀ (e : Engine) (j : Nat) (jpix : Int) (sp : SecPoint) (m : Match),
      m ∈ domatch1_2file e j jpix sp →
      (e.cat.getD m.cat_ind.toNat default).point.cos_radius < m.cosdist) := by
  constructor
  · intro e mm sm secPix sec i m hm
    exact domatch_prop (match_prep { e with maxmatch := mm, matching_self := sm })
      secPix sec
      (fun i => by
        rw [match_prep_getD]
        intro m hm
        simp at hm) i m hm
  · intro e j jpix sp m hm
    exact domatch1_2file_mem e j jpix sp m hm

/-- C4 (witness): the concrete in-memory run that stores the exact match
`(0, 0, 20)` in entry 0's buffer, whose cap has scaled cos_radius 10. -/
theorem claim_C4_witness :
    ((⟨0, 0, 20⟩ : Match) ∈
      ((smatch_match testEngine 1 false [6] secExact).cat.getD 0 default).matches_) ∧
    ((smatch_match testEngine 1 false [6] secExact).cat.getD 0 default).point.cos_radius <
      (20 : Int) :=
  ⟨by decide, claim_C4.1 testEngine 1 false [6] secExact 0 ⟨0, 0, 20⟩ (by decide)⟩

/-- C5: with `maxmatch >= 1`, buffers never exceed the cap: every
candidate prefix of a `domatch1` run preserves the bound (so it holds
at every point during the call), and after a `PySMatchCat_match` call
every entry's buffer has size at most `maxmatch`. -/
theorem claim_C5 (mm : Int) (hmm : 1 ≤ mm) :
    (∀ (pt : Point) (ci : Int) (cands : List (Nat × SecPoint)) (st : List Match × Int),
      (st.1.length : Int) ≤ mm →
      ((domatch1_run mm pt ci cands st).1.length : Int) ≤ mm) ∧
    (∀ (e : Engine) (sm : Bool) (secPix : List Int) (sec : List SecPoint) (i : Nat),
      (((smatch_match e mm sm secPix sec).cat.getD i default).matches_.length : Int) ≤ mm) := by
  constructor
  · intro pt ci cands st hst
    unfold domatch1_run
    exact foldl_preserve (P := fun s : List Match × Int => (s.1.length : Int) ≤ mm) cands
      (fun a b _ ha => domatch1_step_len_le mm pt ci a b hmm ha) st hst
  · intro e sm secPix sec i
    exact domatch_bound (match_prep { e with maxmatch := mm, matching_self := sm })
      secPix sec hmm
      (fun j => by
        rw [match_prep_getD]
        simp only [List.length_nil, Nat.cast_zero]
        exact le_trans (by omega) hmm) i

/-- C5 (witness): the cap bound at `maxmatch = 1` on the concrete
one-entry run. -/
theorem claim_C5_witness :
    (1 : Int) ≤ 1 ∧
    (((smatch_match testEngine 1 false [6] secExact).cat.getD 0 default).matches_.length :
      Int) ≤ 1 :=
  ⟨by decide, (claim_C5 1 (by decide)).2 testEngine false [6] secExact 0⟩

/-- C6: after a `PySMatchCat_match` call the engine's `nmatches` equals
the sum of the final buffer sizes over the catalog (appends are counted
exactly once, heap replacements never), and buffers never shrink during
a `domatch1` run. -/
theorem claim_C6 :
    (∀ (e : Engine) (mm : Int) (sm : Bool) (secPix : List Int) (sec : List SecPoint),
      (smatch_match e mm sm secPix sec).nmatches =
        catSizeSum (smatch_match e mm sm secPix sec).cat) ∧
    (∀ (mm : Int) (pt : Point) (ci : Int) (cands : List (Nat × SecPoint))
      (st : List Match × Int),
      st.1.length ≤ (domatch1_run mm pt ci cands st).1.length) := by
  constructor
  · intro e mm sm secPix sec
    exact domatch_nmatches (match_prep { e with maxmatch := mm, matching_self := sm })
      secPix sec (catSizeSum_match_prep _)
  · intro mm pt ci cands st
    unfold domatch1_run
    exact foldl_preserve (P := fun s : List Match × Int => st.1.length ≤ s.1.length) cands
      (fun a b _ ha => Nat.le_trans ha (domatch1_step_mono mm pt ci a b)) st (Nat.le_refl _)

/-- C7 (evaluation of the code at a failing input): with `maxmatch = 0`
the streaming path writes nothing at all — the `tree` member it searches
is the one `PySMatchCat_init` leaves empty and nothing ever populates —
even for a secondary point that passes the geometric test, and which the
in-memory path on the same engine does match (`nmatches = 1`).  No
written match set ever exists to round-trip. -/
theorem claim_C7 :
    (smatch_match2file testEngine 0 false [6] secExact).2 = [] ∧
    (smatch_match2file testEngine 0 false [6] secExact).1.nmatches =
      testEngine.nmatches ∧
    testPoint.cos_radius < dotp testPoint ⟨20, 0, 0⟩ ∧
    (smatch_match testEngine 0 false [6] secExact).nmatches = 1 := by decide

/-- C8: `count_lines` returns exactly the number of newline (0x0A) bytes
of the file: the `feof`-driven loop reads one extra EOF character, but
EOF converts to the `char` value -1, which is never counted. -/
theorem claim_C8 (file : List (Fin 256)) :
    count_lines file = (file.count (10 : Fin 256) : Int) := by
  unfold count_lines
  rw [count_lines_loop_eq]
  simp

/-- C9 (evaluation of the code at a failing input): in the in-memory
path with `maxmatch = 2` and three candidates in one pixel node at
scaled cosdist 14, 12, 16, the final buffer of the single primary holds
`input_ind` 1 twice — the aliasing store in `match_heap_fix` duplicates
the displaced match — so a buffer can contain two matches with the same
`input_ind` for the same primary, contrary to the claim. -/
theorem claim_C9 :
    (((smatch_match testEngine 2 false [6, 6, 6] sec3).cat.getD 0 default).matches_.map
      Match.input_ind) = [1, 1] ∧
    ¬ (((smatch_match testEngine 2 false [6, 6, 6] sec3).cat.getD 0 default).matches_.map
      Match.input_ind).Nodup := by decide

/-- C10: the in-memory `domatch` resets `nmatches` after building the
secondary tree, so the result is independent of the counter the engine
held before the call; the unbounded streaming path never resets it and
adds exactly its written-line count to the running value. -/
theorem claim_C10 :
    (∀ (e : Engine) (mm : Int) (sm : Bool) (secPix : List Int) (sec : List SecPoint)
      (n : Int),
      (smatch_match { e with nmatches := n } mm sm secPix sec).nmatches =
        (smatch_match e mm sm secPix sec).nmatches) ∧
    (∀ (e : Engine) (secPix : List Int) (sec : List SecPoint), e.maxmatch ≤ 0 →
      (domatch2file e secPix sec).1.nmatches =
        e.nmatches + ((domatch2file e secPix sec).2.length : Int)) := by
  constructor
  · intro e mm sm secPix sec n
    rfl
  · intro e secPix sec hmm
    unfold domatch2file
    rw [if_pos hmm]
    exact domatch2file_all_nm e secPix sec

/-- C10 (witness): the streaming accumulation applied to the concrete
engine left by `PySMatchCat_init` (`maxmatch = 0`). -/
theorem claim_C10_witness :
    testEngine.maxmatch ≤ 0 ∧
    (domatch2file testEngine [6] secExact).1.nmatches =
      testEngine.nmatches + ((domatch2file testEngine [6] secExact).2.length : Int) :=
  ⟨by decide, claim_C10.2 testEngine [6] secExact (by decide)⟩

end Smatch
